import Mathlib

/-!
Verification of the Prompt-Builder extraction/normalization engine
(`src-tauri/src/lib.rs`) against its specification.

The Rust code is shallowly embedded in Lean:
* strings are Lean `String`s, but every character-level operation
  (trimming, lowercasing, lexicographic comparison, prefix tests) is
  re-implemented over `String.data : List Char` so that all definitions
  are executable by kernel reduction;
* the filesystem is an inductive tree `FS` in which a directory carries a
  `readable` flag (modelling whether `std::fs::read_dir` succeeds on it)
  and a `badEntry` constructor models a directory entry whose `DirEntry`
  or metadata read fails;
* the root `.gitignore` matcher is an abstract function
  `ign : List String → Bool → Bool` of the path relative to the scan root
  and the is-directory flag, modelling `is_ignored`;
* JSON values are the inductive `JVal`; a JSON number carries its textual
  form (serde's `Number::to_string`), and non-integral float display is
  abstracted as a function parameter where floats occur;
* spreadsheet cells are the inductive `Cell`, with calamine's
  `DataType::Float` modelled as a rational number (`fract() == 0.0`
  becomes `den = 1`, and Rust's decimal-free rendering of integral floats
  becomes `toString q.num`);
* the regex engine is abstracted: the delimiter matcher enters the model
  as the list of match start positions that `find_iter` produced, and an
  optional id-capture enters as a function from a block to an optional
  captured string;
* the HTML DOM engine (crate `scraper`) is abstracted: each element
  matched by the item selector enters as a `DomItem` carrying its own
  attributes and text, the attributes/text of the first descendant
  matched by the id selector, and the texts of the descendants matched by
  the description selector.
-/

/- ====================== Character/string helpers ====================== -/

/-- Strict lexicographic comparison of character lists by code point.
Models Rust's `Ord` on `str`/`String` (byte-lexicographic order, which on
valid UTF-8 coincides with code-point order). -/
def ltCC : List Char → List Char → Bool
  | [], [] => false
  | [], _ :: _ => true
  | _ :: _, [] => false
  | a :: as, b :: bs => if a < b then true else if b < a then false else ltCC as bs

/-- Model of Rust `str::trim` on a character list (whitespace from both
ends; the inputs in this development are ASCII, where Rust's Unicode
whitespace and `Char.isWhitespace` agree). -/
def trimCC (l : List Char) : List Char :=
  ((l.dropWhile Char.isWhitespace).reverse.dropWhile Char.isWhitespace).reverse

/-- Model of Rust `str::trim` as a `String` operation. -/
def trimS (s : String) : String := ⟨trimCC s.data⟩

/-- ASCII lowercasing of one character. -/
def asciiLower (c : Char) : Char :=
  if 'A' ≤ c ∧ c ≤ 'Z' then Char.ofNat (c.toNat + 32) else c

/-- Model of Rust `str::to_lowercase` (the names involved here are ASCII,
where Unicode lowercasing and ASCII lowercasing agree). Also the exact
model of `eq_ignore_ascii_case`'s case folding. -/
def toLowerS (s : String) : String := ⟨s.data.map asciiLower⟩

/-- Model of Rust `str::starts_with(c: char)`. -/
def startsWithChar (c : Char) (s : String) : Bool :=
  match s.data with
  | [] => false
  | a :: _ => a == c

/-- Model of Rust `str::eq_ignore_ascii_case`. -/
def eqIgnoreAsciiCase (a b : String) : Bool := toLowerS a == toLowerS b

/-- Model of Rust `Vec::<String>::join("\n")`. -/
def joinNL : List String → String
  | [] => ""
  | [s] => s
  | s :: rest => s ++ "\n" ++ joinNL rest

/-- Model of Rust `String::cmp` (lexicographic). -/
def strCmp (a b : String) : Ordering :=
  if ltCC a.data b.data then .lt else if ltCC b.data a.data then .gt else .eq

/-- Stable insertion of `x` into `l`, placing `x` before the first element
it is `le`-below-or-tied-with. -/
def insertSorted {α} (le : α → α → Bool) (x : α) : List α → List α
  | [] => [x]
  | y :: ys => if le x y then x :: y :: ys else y :: insertSorted le x ys

/-- Stable insertion sort. Models Rust's stable `slice::sort_by`: for a
total preorder the output of any stable sort is uniquely determined, so
this is extensionally the sort the code performs. -/
def sortBy {α} (le : α → α → Bool) : List α → List α
  | [] => []
  | x :: xs => insertSorted le x (sortBy le xs)

/- ====================== Facts about ltCC ====================== -/

theorem ltCC_irrefl : ∀ a : List Char, ltCC a a = false := by
  intro a
  induction a with
  | nil => rfl
  | cons c cs ih => simp [ltCC, ih]

theorem ltCC_asymm : ∀ a b : List Char, ltCC a b = true → ltCC b a = false := by
  intro a
  induction a with
  | nil => intro b h; cases b with
    | nil => simp [ltCC] at h
    | cons y ys => simp [ltCC]
  | cons x xs ih =>
    intro b h
    cases b with
    | nil => simp [ltCC] at h
    | cons y ys =>
      simp only [ltCC] at h ⊢
      rcases lt_trichotomy x y with hxy | hxy | hxy
      · simp [hxy, not_lt_of_gt hxy]
      · subst hxy
        simp [lt_irrefl] at h ⊢
        exact ih ys h
      · simp [hxy, not_lt_of_gt hxy] at h

theorem ltCC_trans : ∀ a b c : List Char,
    ltCC a b = true → ltCC b c = true → ltCC a c = true := by
  intro a
  induction a with
  | nil =>
    intro b c hab hbc
    cases b with
    | nil => simp [ltCC] at hab
    | cons y ys =>
      cases c with
      | nil => simp [ltCC] at hbc
      | cons z zs => simp [ltCC]
  | cons x xs ih =>
    intro b c hab hbc
    cases b with
    | nil => simp [ltCC] at hab
    | cons y ys =>
      cases c with
      | nil => simp [ltCC] at hbc
      | cons z zs =>
        simp only [ltCC] at hab hbc ⊢
        rcases lt_trichotomy x y with hxy | hxy | hxy
        · rcases lt_trichotomy y z with hyz | hyz | hyz
          · simp [lt_trans hxy hyz]
          · subst hyz; simp [hxy]
          · simp [hyz, not_lt_of_gt hyz] at hbc
        · subst hxy
          rcases lt_trichotomy x z with hyz | hyz | hyz
          · simp [hyz]
          · subst hyz
            simp [lt_irrefl] at hab hbc ⊢
            exact ih ys zs hab hbc
          · simp [hyz, not_lt_of_gt hyz] at hbc
        · simp [hxy, not_lt_of_gt hxy] at hab

theorem ltCC_eq_of_not : ∀ a b : List Char,
    ltCC a b = false → ltCC b a = false → a = b := by
  intro a
  induction a with
  | nil => intro b hab _; cases b with
    | nil => rfl
    | cons y ys => simp [ltCC] at hab
  | cons x xs ih =>
    intro b hab hba
    cases b with
    | nil => simp [ltCC] at hba
    | cons y ys =>
      simp only [ltCC] at hab hba
      rcases lt_trichotomy x y with hxy | hxy | hxy
      · simp [hxy] at hab
      · subst hxy
        simp [lt_irrefl] at hab hba
        exact congrArg (x :: ·) (ih ys hab hba)
      · simp [hxy, not_lt_of_gt hxy] at hba

/-- `ltCC` agrees with the standard lexicographic strict order on
`List Char` (and hence with `String`'s `<`). -/
theorem ltCC_iff_lex : ∀ a b : List Char, ltCC a b = true ↔ List.Lex (· < ·) a b := by
  intro a
  induction a with
  | nil =>
    intro b
    cases b with
    | nil =>
      constructor
      · intro h; simp [ltCC] at h
      · intro h; cases h
    | cons y ys =>
      constructor
      · intro _; exact List.Lex.nil
      · intro _; rfl
  | cons x xs ih =>
    intro b
    cases b with
    | nil =>
      constructor
      · intro h; simp [ltCC] at h
      · intro h; cases h
    | cons y ys =>
      simp only [ltCC]
      constructor
      · intro h
        rcases lt_trichotomy x y with hxy | hxy | hxy
        · exact List.Lex.rel hxy
        · subst hxy
          simp [lt_irrefl] at h
          exact List.Lex.cons ((ih ys).mp h)
        · simp [hxy, not_lt_of_gt hxy] at h
      · intro h
        cases h with
        | @rel _ _ _ _ h1 => simp [h1]
        | @cons _ _ _ h3 =>
          simp [lt_irrefl]
          exact (ih ys).mpr h3

/- ====================== Insertion sort lemmas ====================== -/

theorem mem_insertSorted {α} (le : α → α → Bool) (x a : α) :
    ∀ l : List α, a ∈ insertSorted le x l ↔ a = x ∨ a ∈ l := by
  intro l
  induction l with
  | nil => simp [insertSorted]
  | cons y ys ih =>
    simp only [insertSorted]
    by_cases h : le x y = true
    · simp [h, List.mem_cons]
    · simp only [h, if_neg, Bool.not_eq_true, List.mem_cons, ih]
      tauto

theorem mem_sortBy {α} (le : α → α → Bool) (a : α) :
    ∀ l : List α, a ∈ sortBy le l ↔ a ∈ l := by
  intro l
  induction l with
  | nil => simp [sortBy]
  | cons x xs ih =>
    simp only [sortBy, mem_insertSorted, List.mem_cons, ih]

theorem pairwise_insertSorted {α} (le : α → α → Bool)
    (total : ∀ a b, le a b = true ∨ le b a = true)
    (htrans : ∀ a b c, le a b = true → le b c = true → le a c = true)
    (x : α) :
    ∀ l : List α, l.Pairwise (fun a b => le a b = true) →
      (insertSorted le x l).Pairwise (fun a b => le a b = true) := by
  intro l
  induction l with
  | nil => intro _; simp [insertSorted]
  | cons y ys ih =>
    intro hp
    rcases List.pairwise_cons.mp hp with ⟨hy, hys⟩
    simp only [insertSorted]
    by_cases h : le x y = true
    · rw [if_pos h]
      refine List.pairwise_cons.mpr ⟨?_, hp⟩
      intro b hb
      rcases List.mem_cons.mp hb with hb | hb
      · subst hb; exact h
      · exact htrans x y b h (hy b hb)
    · rw [if_neg h]
      refine List.pairwise_cons.mpr ⟨?_, ih hys⟩
      intro b hb
      rcases (mem_insertSorted le x b ys).mp hb with hb | hb
      · rcases total x y with h1 | h1
        · exact absurd h1 h
        · exact hb ▸ h1
      · exact hy b hb

theorem pairwise_sortBy {α} (le : α → α → Bool)
    (total : ∀ a b, le a b = true ∨ le b a = true)
    (htrans : ∀ a b c, le a b = true → le b c = true → le a c = true) :
    ∀ l : List α, (sortBy le l).Pairwise (fun a b => le a b = true) := by
  intro l
  induction l with
  | nil => simp [sortBy]
  | cons x xs ih => exact pairwise_insertSorted le total htrans x _ ih

/- ====================== Data model: FileNode, FS ====================== -/

/-- The `FileNode` struct returned to the frontend. The `path` field is
the path relative to the scan root, as a list of components (the Rust
code stores the absolute path string; only the relative part varies). -/
inductive FileNode where
  | mk (name : String) (path : List String) (isDir : Bool)
       (children : Option (List FileNode))

def FileNode.name : FileNode → String
  | .mk n _ _ _ => n

def FileNode.path : FileNode → List String
  | .mk _ p _ _ => p

def FileNode.isDir : FileNode → Bool
  | .mk _ _ d _ => d

def FileNode.children : FileNode → Option (List FileNode)
  | .mk _ _ _ c => c

/-- Abstract filesystem. A directory's `readable` flag is whether
`std::fs::read_dir` succeeds on it; `badEntry` is an entry whose
`DirEntry` or metadata read fails (both are skipped with `continue`). -/
inductive FS where
  | file (name : String)
  | badEntry (name : String)
  | dir (name : String) (readable : Bool) (entries : List FS)

/- ====================== Tree building ====================== -/

/-- The comparator of `build_tree_rec`'s `children.sort_by`: directories
first, then case-insensitive lexicographic name order. -/
def nodeCmp (a b : FileNode) : Ordering :=
  match a.isDir, b.isDir with
  | true, false => .lt
  | false, true => .gt
  | _, _ => strCmp (toLowerS a.name) (toLowerS b.name)

/-- `sort_by` keeps `a` before `b` when the comparator does not say
`Greater`. -/
def nodeLE (a b : FileNode) : Bool :=
  match nodeCmp a b with
  | .gt => false
  | _ => true

mutual

/-- Model of `build_tree_rec(root, dir, gi)`. `rel` is `dir` relative to
`root` (so `rel = []` means `dir == root`), and `ign rel isDir` models
`is_ignored(root, gi, dir, is_dir)`. -/
def build_tree_rec (ign : List String → Bool → Bool) (rel : List String) :
    FS → Except Unit FileNode
  | .file _ => .error ()
  | .badEntry _ => .error ()
  | .dir n readable entries =>
    if rel ≠ [] ∧ ign rel true = true then
      .ok (.mk n rel true (some []))
    else if !readable then
      .error ()
    else
      match build_children ign rel entries with
      | .error e => .error e
      | .ok children => .ok (.mk n rel true (some (sortBy nodeLE children)))

/-- The entry loop of `build_tree_rec` (lines 93-129): per-entry failures
are skipped with `continue`, dotfiles are skipped, ignored entries are
skipped, files are pushed, directories are recursed into with `?`
propagating any error. -/
def build_children (ign : List String → Bool → Bool) (rel : List String) :
    List FS → Except Unit (List FileNode)
  | [] => .ok []
  | .badEntry _ :: rest => build_children ign rel rest
  | .file fn :: rest =>
    if startsWithChar '.' fn then build_children ign rel rest
    else if ign (rel ++ [fn]) false = true then build_children ign rel rest
    else
      match build_children ign rel rest with
      | .error e => .error e
      | .ok res => .ok (.mk fn (rel ++ [fn]) false none :: res)
  | e@(.dir dn _ _) :: rest =>
    if startsWithChar '.' dn then build_children ign rel rest
    else if ign (rel ++ [dn]) true = true then build_children ign rel rest
    else
      match build_tree_rec ign (rel ++ [dn]) e with
      | .error err => .error err
      | .ok node =>
        match build_children ign rel rest with
        | .error err => .error err
        | .ok res => .ok (node :: res)

end

/-- Model of `scan_dir` / `build_tree_with_gitignore`: the scan starts at
the root with the loaded (abstract) ignore matcher. -/
def scan_tree (ign : List String → Bool → Bool) (fs : FS) : Except Unit FileNode :=
  build_tree_rec ign [] fs

/- ====================== Ordering facts for the children sort ====================== -/

theorem strCmp_eq_gt_iff (a b : String) :
    strCmp a b = .gt ↔ ltCC b.data a.data = true := by
  unfold strCmp
  cases h1 : ltCC a.data b.data with
  | true => simp [ltCC_asymm _ _ h1]
  | false =>
    cases h2 : ltCC b.data a.data with
    | true => simp
    | false => simp

theorem nodeLE_eq_true_iff (a b : FileNode) :
    nodeLE a b = true ↔ nodeCmp a b ≠ .gt := by
  unfold nodeLE
  cases h : nodeCmp a b <;> simp [h]

theorem nodeLE_total : ∀ a b : FileNode, nodeLE a b = true ∨ nodeLE b a = true := by
  intro a b
  rw [nodeLE_eq_true_iff, nodeLE_eq_true_iff]
  unfold nodeCmp
  cases hda : a.isDir <;> cases hdb : b.isDir <;> simp
  · by_cases h : ltCC (toLowerS b.name).data (toLowerS a.name).data = true
    · right
      rw [strCmp_eq_gt_iff]
      simp [ltCC_asymm _ _ h]
    · left
      rw [strCmp_eq_gt_iff]
      simp [h]
  · by_cases h : ltCC (toLowerS b.name).data (toLowerS a.name).data = true
    · right
      rw [strCmp_eq_gt_iff]
      simp [ltCC_asymm _ _ h]
    · left
      rw [strCmp_eq_gt_iff]
      simp [h]

theorem ltCC_not_trans {a b c : List Char} (hab : ltCC b a = false) (hbc : ltCC c b = false) :
    ltCC c a = false := by
  cases hca : ltCC c a with
  | false => rfl
  | true =>
    exfalso
    cases hbc2 : ltCC b c with
    | true =>
      have : ltCC b a = true := ltCC_trans b c a hbc2 hca
      rw [this] at hab
      cases hab
    | false =>
      have hbceq : b = c := ltCC_eq_of_not b c hbc2 hbc
      rw [← hbceq] at hca
      rw [hca] at hab
      cases hab

theorem nodeLE_trans : ∀ a b c : FileNode,
    nodeLE a b = true → nodeLE b c = true → nodeLE a c = true := by
  intro a b c hab hbc
  rw [nodeLE_eq_true_iff] at hab hbc ⊢
  unfold nodeCmp at hab hbc ⊢
  cases hda : a.isDir <;> cases hdb : b.isDir <;> cases hdc : c.isDir <;>
    rw [hda, hdb] at hab <;> rw [hdb, hdc] at hbc <;> simp at hab hbc ⊢
  · rw [strCmp_eq_gt_iff] at hab hbc ⊢
    simp only [Bool.not_eq_true] at hab hbc ⊢
    exact ltCC_not_trans hab hbc
  · rw [strCmp_eq_gt_iff] at hab hbc ⊢
    simp only [Bool.not_eq_true] at hab hbc ⊢
    exact ltCC_not_trans hab hbc

/- ====================== The ordering invariant of a scanned tree ====================== -/

/-- Case-insensitive lexicographic "not greater" comparison of two nodes'
names, the in-group order required by the spec. -/
def lowNameLe (a b : FileNode) : Bool :=
  !(ltCC (toLowerS b.name).data (toLowerS a.name).data)

/-- The claimed order between a child `a` and a later child `b`:
directory nodes precede file nodes, and inside a group names are in
case-insensitive lexicographic order. -/
def childOrd (a b : FileNode) : Bool :=
  (!b.isDir || a.isDir) && (if a.isDir = b.isDir then lowNameLe a b else true)

/-- Adjacent-pairs check of `childOrd` along a children list. -/
def chainOrdered : List FileNode → Bool
  | a :: b :: rest => childOrd a b && chainOrdered (b :: rest)
  | _ => true

mutual

/-- The claimed invariant, at every level of a `FileNode` tree. -/
def sortedNode : FileNode → Bool
  | .mk _ _ _ none => true
  | .mk _ _ _ (some cs) => chainOrdered cs && allSorted cs

def allSorted : List FileNode → Bool
  | [] => true
  | c :: rest => sortedNode c && allSorted rest

end

theorem nodeLE_imp_childOrd (a b : FileNode) (h : nodeLE a b = true) :
    childOrd a b = true := by
  rw [nodeLE_eq_true_iff] at h
  unfold nodeCmp at h
  unfold childOrd lowNameLe
  cases hda : a.isDir <;> cases hdb : b.isDir <;> rw [hda, hdb] at h <;> simp at h ⊢
  · rw [strCmp_eq_gt_iff] at h
    simpa using h
  · rw [strCmp_eq_gt_iff] at h
    simpa using h

theorem chainOrdered_of_pairwise :
    ∀ l : List FileNode, l.Pairwise (fun a b => childOrd a b = true) →
      chainOrdered l = true := by
  intro l
  induction l with
  | nil => intro _; rfl
  | cons a rest ih =>
    intro hp
    cases rest with
    | nil => rfl
    | cons b rest2 =>
      rcases List.pairwise_cons.mp hp with ⟨ha, hp2⟩
      simp only [chainOrdered, Bool.and_eq_true]
      exact ⟨ha b (List.mem_cons_self b rest2), ih hp2⟩

theorem allSorted_iff :
    ∀ l : List FileNode, allSorted l = true ↔ ∀ c ∈ l, sortedNode c = true := by
  intro l
  induction l with
  | nil => simp [allSorted]
  | cons c rest ih =>
    rw [allSorted, Bool.and_eq_true, ih]
    constructor
    · rintro ⟨h1, h2⟩ d hd
      rcases List.mem_cons.mp hd with hd | hd
      · exact hd ▸ h1
      · exact h2 d hd
    · intro hall
      exact ⟨hall c (List.mem_cons_self c rest),
             fun d hd => hall d (List.mem_cons_of_mem c hd)⟩

mutual

theorem build_tree_rec_sorted (ign : List String → Bool → Bool) (rel : List String)
    (fs : FS) : ∀ node, build_tree_rec ign rel fs = .ok node → sortedNode node = true := by
  intro node h
  match fs with
  | .file _ => rw [build_tree_rec] at h; cases h
  | .badEntry _ => rw [build_tree_rec] at h; cases h
  | .dir n readable entries =>
    rw [build_tree_rec] at h
    split at h
    · cases h
      rw [sortedNode]
      rfl
    · split at h
      · cases h
      · cases hb : build_children ign rel entries with
        | error e => rw [hb] at h; cases h
        | ok cs =>
          rw [hb] at h
          cases h
          rw [sortedNode]
          rw [Bool.and_eq_true]
          constructor
          · apply chainOrdered_of_pairwise
            exact (pairwise_sortBy nodeLE nodeLE_total nodeLE_trans cs).imp
              (fun hab => nodeLE_imp_childOrd _ _ hab)
          · rw [allSorted_iff]
            intro c hc
            exact build_children_sorted ign rel entries cs hb c
              ((mem_sortBy nodeLE c cs).mp hc)

theorem build_children_sorted (ign : List String → Bool → Bool) (rel : List String)
    (l : List FS) : ∀ cs, build_children ign rel l = .ok cs →
      ∀ c ∈ cs, sortedNode c = true := by
  intro cs h c hc
  match l with
  | [] =>
    rw [build_children] at h
    cases h
    cases hc
  | .badEntry m :: rest =>
    rw [build_children] at h
    exact build_children_sorted ign rel rest cs h c hc
  | .file fn :: rest =>
    rw [build_children] at h
    split at h
    · exact build_children_sorted ign rel rest cs h c hc
    · split at h
      · exact build_children_sorted ign rel rest cs h c hc
      · cases hb : build_children ign rel rest with
        | error e => rw [hb] at h; cases h
        | ok res =>
          rw [hb] at h
          cases h
          rcases List.mem_cons.mp hc with hc | hc
          · subst hc
            rw [sortedNode]
          · exact build_children_sorted ign rel rest res hb c hc
  | .dir dn rd ents :: rest =>
    rw [build_children] at h
    split at h
    · exact build_children_sorted ign rel rest cs h c hc
    · split at h
      · exact build_children_sorted ign rel rest cs h c hc
      · cases ht : build_tree_rec ign (rel ++ [dn]) (.dir dn rd ents) with
        | error e => rw [ht] at h; cases h
        | ok node2 =>
          rw [ht] at h
          cases hb : build_children ign rel rest with
          | error e => rw [hb] at h; cases h
          | ok res =>
            rw [hb] at h
            cases h
            rcases List.mem_cons.mp hc with hc | hc
            · subst hc
              exact build_tree_rec_sorted ign (rel ++ [dn]) (.dir dn rd ents) c ht
            · exact build_children_sorted ign rel rest res hb c hc

end

/- ====================== Claims C1, C2, C6 ====================== -/

/-- Claim C6: for every directory tree and ignore matcher, at every level
of the FileNode result of scanTree, all directory-nodes precede all
file-nodes within a node's children, and within each of the two groups
the children are ordered case-insensitively lexicographically by name. -/
theorem scan_tree_children_ordered (ign : List String → Bool → Bool) (fs : FS)
    (node : FileNode) (h : scan_tree ign fs = .ok node) : sortedNode node = true :=
  build_tree_rec_sorted ign [] fs node h

/-- Witness for C6: a concrete scan (a root holding files `b`, `A` and a
subdirectory `sub` holding files `Z`, `a`) produces the tree with `sub`
first and the files in case-insensitive name order at both levels, and
the theorem applies to it. -/
theorem scan_tree_children_ordered_witness :
    scan_tree (fun _ _ => false)
        (.dir "r" true [.file "b", .dir "sub" true [.file "Z", .file "a"], .file "A"]) =
      .ok (.mk "r" [] true (some
        [ .mk "sub" ["sub"] true (some
            [ .mk "a" ["sub", "a"] false none,
              .mk "Z" ["sub", "Z"] false none ]),
          .mk "A" ["A"] false none,
          .mk "b" ["b"] false none ])) ∧
    sortedNode (.mk "r" [] true (some
        [ .mk "sub" ["sub"] true (some
            [ .mk "a" ["sub", "a"] false none,
              .mk "Z" ["sub", "Z"] false none ]),
          .mk "A" ["A"] false none,
          .mk "b" ["b"] false none ])) = true := by
  have h : scan_tree (fun _ _ => false)
      (.dir "r" true [.file "b", .dir "sub" true [.file "Z", .file "a"], .file "A"]) =
      .ok (.mk "r" [] true (some
        [ .mk "sub" ["sub"] true (some
            [ .mk "a" ["sub", "a"] false none,
              .mk "Z" ["sub", "Z"] false none ]),
          .mk "A" ["A"] false none,
          .mk "b" ["b"] false none ])) := by
    simp [scan_tree, build_tree_rec, build_children, sortBy, insertSorted, startsWithChar,
          nodeLE, nodeCmp, strCmp, ltCC, toLowerS, asciiLower, FileNode.isDir, FileNode.name]
  exact ⟨h, scan_tree_children_ordered _ _ _ h⟩

/-- Claim C1 counterexample: scanning a root whose subdirectory `b`
matches the ignore set yields a root node whose children list omits `b`
entirely (only the file `f` remains), whereas the claim requires `b` to
appear as a directory node with an empty children list. The skip at
lines 113-116 of `lib.rs` runs before the recursive call, so the
empty-node branch at lines 82-89 is never reached from `scan_dir`. -/
theorem scan_tree_ignored_dir_omitted_cex :
    scan_tree (fun rel _ => rel == ["b"])
        (.dir "r" true [.dir "b" true [], .file "f"]) =
      .ok (.mk "r" [] true (some [.mk "f" ["f"] false none])) := by
  simp [scan_tree, build_tree_rec, build_children, sortBy, insertSorted, startsWithChar,
        nodeLE, nodeCmp, strCmp, ltCC, toLowerS, asciiLower, FileNode.isDir, FileNode.name]

/-- Claim C1 (amended): when a non-root directory's relative path matches
the ignore set, the scan omits it from its parent's children and never
recurses into it; the empty-children directory node of lines 82-89 is
produced only when `build_tree_rec` is invoked directly on such a
directory, which `scan_dir` never does. -/
theorem build_tree_ignored_dir (ign : List String → Bool → Bool) (rel : List String)
    (n : String) (rd : Bool) (ents rest : List FS)
    (hskip : ign (rel ++ [n]) true = true) :
    build_children ign rel (.dir n rd ents :: rest) = build_children ign rel rest ∧
    build_tree_rec ign (rel ++ [n]) (.dir n rd ents) =
      .ok (.mk n (rel ++ [n]) true (some [])) := by
  constructor
  · rw [build_children]
    by_cases hdot : startsWithChar '.' n = true
    · rw [if_pos hdot]
    · rw [if_neg hdot, if_pos hskip]
  · rw [build_tree_rec]
    rw [if_pos ⟨by simp, hskip⟩]

/-- Witness for the amended C1: concrete ignore set matching exactly
`b`; the entry is dropped from the parent's children and a direct call on
it returns the empty directory node. -/
theorem build_tree_ignored_dir_witness :
    (fun (r : List String) (_ : Bool) => r == ["b"]) ([] ++ ["b"]) true = true ∧
    (build_children (fun r _ => r == ["b"]) [] (.dir "b" true [] :: [.file "f"]) =
        build_children (fun r _ => r == ["b"]) [] [.file "f"] ∧
      build_tree_rec (fun r _ => r == ["b"]) ([] ++ ["b"]) (.dir "b" true []) =
        .ok (.mk "b" ([] ++ ["b"]) true (some []))) :=
  ⟨by decide, build_tree_ignored_dir (fun r _ => r == ["b"]) [] "b" true [] [.file "f"]
      (by decide)⟩

/-- Claim C2 counterexample: a scan of a root with a single subdirectory
`b` that cannot be listed (modelled by `readable = false`) fails as a
whole: the `?` on the recursive call at line 119 of `lib.rs` propagates
the child's `read_dir` error instead of swallowing it. -/
theorem scan_tree_unreadable_child_fails_cex :
    scan_tree (fun _ _ => false) (.dir "r" true [.dir "b" false []]) = .error () := by
  simp [scan_tree, build_tree_rec, build_children, startsWithChar]

/-- Claim C2 (amended): failures to obtain a directory entry or its
metadata are swallowed at that entry (the entry is skipped and the scan
continues), but a failure to list a non-ignored, non-hidden child
directory's contents propagates and fails the whole scan. -/
theorem build_children_error_policy (ign : List String → Bool → Bool) (rel : List String)
    (n : String) (ents rest : List FS)
    (hdot : startsWithChar '.' n = false)
    (hign : ign (rel ++ [n]) true = false) :
    build_children ign rel (.badEntry n :: rest) = build_children ign rel rest ∧
    build_children ign rel (.dir n false ents :: rest) = .error () := by
  constructor
  · rw [build_children]
  · rw [build_children]
    rw [if_neg (by simp [hdot]), if_neg (by simp [hign])]
    have ht : build_tree_rec ign (rel ++ [n]) (.dir n false ents) = .error () := by
      rw [build_tree_rec]
      rw [if_neg (by simp [hign])]
      rfl
    rw [ht]

/-- Witness for the amended C2: with no ignore patterns, a bad entry is
skipped while an unreadable subdirectory `b` turns the listing into an
error. -/
theorem build_children_error_policy_witness :
    startsWithChar '.' "b" = false ∧
    (fun (_ : List String) (_ : Bool) => false) ([] ++ ["b"]) true = false ∧
    (build_children (fun _ _ => false) [] (.badEntry "b" :: [.file "f"]) =
        build_children (fun _ _ => false) [] [.file "f"] ∧
      build_children (fun _ _ => false) [] (.dir "b" false [] :: [.file "f"]) =
        .error ()) :=
  ⟨by decide, rfl, build_children_error_policy (fun _ _ => false) [] "b" [] [.file "f"]
      (by decide) rfl⟩

/- ====================== PromptUnit ====================== -/

/-- JSON values (`serde_json::Value`). A number carries its canonical
textual form, which is what `Number::to_string` produces; object fields
keep serde's iteration order as list order. -/
inductive JVal where
  | null
  | bool (b : Bool)
  | num (canonical : String)
  | str (s : String)
  | arr (elems : List JVal)
  | obj (fields : List (String × JVal))

/-- One extracted unit (`PromptUnit`). -/
structure PromptUnit where
  id : String
  body : String
  meta : Option JVal

/- ====================== JSON serialization ====================== -/

def hexDigit (n : Nat) : Char :=
  if n < 10 then Char.ofNat (48 + n) else Char.ofNat (87 + n)

/-- serde_json's escaping of one character inside a JSON string. -/
def escapeJsonChar (c : Char) : List Char :=
  if c = '"' then ['\\', '"']
  else if c = '\\' then ['\\', '\\']
  else if c = '\n' then ['\\', 'n']
  else if c = '\t' then ['\\', 't']
  else if c = '\r' then ['\\', 'r']
  else if c.toNat = 8 then ['\\', 'b']
  else if c.toNat = 12 then ['\\', 'f']
  else if c.toNat < 32 then
    ['\\', 'u', '0', '0', hexDigit (c.toNat / 16), hexDigit (c.toNat % 16)]
  else [c]

def escapeJson (s : String) : String := ⟨(s.data.map escapeJsonChar).flatten⟩

def joinComma : List String → String
  | [] => ""
  | [s] => s
  | s :: rest => s ++ "," ++ joinComma rest

mutual

/-- Compact serialization (`serde_json::to_string`). -/
def serJVal : JVal → String
  | .null => "null"
  | .bool b => toString b
  | .num canonical => canonical
  | .str s => "\"" ++ escapeJson s ++ "\""
  | .arr elems => "[" ++ joinComma (serJValList elems) ++ "]"
  | .obj fields => "\x7b" ++ joinComma (serJValFields fields) ++ "\x7d"

def serJValList : List JVal → List String
  | [] => []
  | v :: rest => serJVal v :: serJValList rest

def serJValFields : List (String × JVal) → List String
  | [] => []
  | (k, v) :: rest => ("\"" ++ escapeJson k ++ "\":" ++ serJVal v) :: serJValFields rest

end

/-- `json_to_string` of `lib.rs` lines 568-576. -/
def json_to_string : JVal → String
  | .null => ""
  | .bool b => toString b
  | .num canonical => canonical
  | .str s => s
  | other => serJVal other

/- ====================== JSON accessors ====================== -/

def JVal.asArr : JVal → Option (List JVal)
  | .arr elems => some elems
  | _ => none

def JVal.asObj : JVal → Option (List (String × JVal))
  | .obj fields => some fields
  | _ => none

def JVal.asStr : JVal → Option String
  | .str s => some s
  | _ => none

/-- `Value::get(key)`: field lookup on objects, `None` on anything else. -/
def JVal.get (v : JVal) (k : String) : Option JVal :=
  match v with
  | .obj fields => fields.lookup k
  | _ => none

abbrev JObj := List (String × JVal)

/- ====================== find_array_of_objects ====================== -/

/-- The object elements kept from an array (`filter_map(as_object)`). -/
def keptObjs (xs : List JVal) : List JObj := xs.filterMap JVal.asObj

/-- The test applied to each candidate value in `find_array_of_objects`:
is it an array whose kept object elements are non-empty. -/
def arrObjsOf (val : JVal) : Option (List JObj) :=
  match val.asArr with
  | some xs =>
    let objs := keptObjs xs
    if objs.isEmpty then none else some objs
  | none => none

/-- The preference-ordered key probe (lines 586-593). -/
def probeKeys (fields : JObj) : List String → Option (List JObj)
  | [] => none
  | k :: ks =>
    match fields.lookup k with
    | some val =>
      match arrObjsOf val with
      | some objs => some objs
      | none => probeKeys fields ks
    | none => probeKeys fields ks

/-- The exhaustive value scan (lines 594-599). -/
def scanVals : JObj → Option (List JObj)
  | [] => none
  | (_, val) :: rest =>
    match arrObjsOf val with
    | some objs => some objs
    | none => scanVals rest

def preferredKeys : List String := ["items", "rows", "data", "result", "notes", "records"]

/-- `find_array_of_objects` of `lib.rs` lines 580-602. -/
def find_array_of_objects (v : JVal) : Option (List JObj) :=
  match arrObjsOf v with
  | some objs => some objs
  | none =>
    match v.asObj with
    | some fields =>
      match probeKeys fields preferredKeys with
      | some objs => some objs
      | none => scanVals fields
    | none => none

/- ====================== Normalization to a table ====================== -/

/-- `ApiTable`; a row is the ordered association list backing the
`HashMap<String, String>` the code builds (one entry per column). -/
structure ApiTable where
  columns : List String
  rows : List (List (String × String))

/-- `BTreeSet<String>::insert`: sorted insertion without duplicates. -/
def insSorted (x : String) : List String → List String
  | [] => [x]
  | y :: ys =>
    if x == y then y :: ys
    else if ltCC x.data y.data then x :: y :: ys
    else y :: insSorted x ys

/-- Inserting all of one object's keys into the accumulated set. -/
def btInsertAll (acc : List String) (keys : List String) : List String :=
  keys.foldl (fun a k => insSorted k a) acc

/-- The column set: every key of every discovered object, collected in a
`BTreeSet` (lines 630-632). -/
def columnsOf (objs : List JObj) : List String :=
  objs.foldl (fun acc o => btInsertAll acc (o.map Prod.fst)) []

/-- One output row (lines 636-640): one entry per column, the stringified
value, or the empty string when the object lacks the key. -/
def rowOf (columns : List String) (o : JObj) : List (String × String) :=
  columns.map (fun c => (c, ((o.lookup c).map json_to_string).getD ""))

/-- The normalization core of `fetch_api_table` (lines 630-644). -/
def normalizeObjs (objs : List JObj) : ApiTable :=
  let columns := columnsOf objs
  { columns := columns, rows := objs.map (rowOf columns) }

/-- The response-shape handling of `fetch_api_table` (lines 626-644),
after the HTTP exchange produced the JSON value `v`. -/
def fetch_api_table_core (v : JVal) : Except String ApiTable :=
  match find_array_of_objects v with
  | none => .error "No array of objects in API response"
  | some objs => .ok (normalizeObjs objs)

def exceptIsOk {ε α : Type} : Except ε α → Bool
  | .ok _ => true
  | .error _ => false

/- ====================== extract_api_units decoding ====================== -/

/-- The response decoding of `extract_api_units` (lines 543-565), after
the HTTP exchange produced the JSON value `v`. -/
def extract_api_units_core (which : String) (v : JVal) : List PromptUnit :=
  let list : List JVal :=
    match v.asArr with
    | some arr => arr
    | none =>
      match (v.get "items").bind JVal.asArr with
      | some arr => arr
      | none =>
        match (v.get "notes").bind JVal.asArr with
        | some arr => arr
        | none => [v]
  let takeKey := if startsWithChar 'n' (toLowerS which) then "notes_text" else "items_text"
  list.filterMap (fun item =>
    let code := trimS (((item.get "code").bind JVal.asStr).getD "")
    let body := trimS (((item.get takeKey).bind JVal.asStr).getD "")
    if code ≠ "" ∧ body ≠ "" then some ⟨code, body, none⟩ else none)

/- ====================== Facts about the column BTreeSet ====================== -/

theorem strLt_iff (a b : String) : ltCC a.data b.data = true ↔ a < b := by
  rw [String.lt_iff_toList_lt]
  exact ltCC_iff_lex a.data b.data

theorem mem_insSorted (x a : String) :
    ∀ l : List String, a ∈ insSorted x l ↔ a = x ∨ a ∈ l := by
  intro l
  induction l with
  | nil => simp [insSorted]
  | cons y ys ih =>
    rw [insSorted]
    by_cases he : (x == y) = true
    · rw [if_pos he]
      rw [beq_iff_eq] at he
      subst he
      constructor
      · intro h; exact Or.inr h
      · rintro (h | h)
        · rw [h]; exact List.mem_cons_self x ys
        · exact h
    · rw [if_neg he]
      by_cases hlt : ltCC x.data y.data = true
      · rw [if_pos hlt]
        rw [List.mem_cons]
      · rw [if_neg hlt]
        rw [List.mem_cons, ih, List.mem_cons]
        tauto

theorem pairwise_insSorted (x : String) :
    ∀ l : List String, l.Pairwise (fun a b => ltCC a.data b.data = true) →
      (insSorted x l).Pairwise (fun a b => ltCC a.data b.data = true) := by
  intro l
  induction l with
  | nil => intro _; simp [insSorted]
  | cons y ys ih =>
    intro hp
    rcases List.pairwise_cons.mp hp with ⟨hy, hys⟩
    rw [insSorted]
    by_cases he : (x == y) = true
    · rw [if_pos he]
      exact hp
    · rw [if_neg he]
      by_cases hlt : ltCC x.data y.data = true
      · rw [if_pos hlt]
        refine List.pairwise_cons.mpr ⟨?_, hp⟩
        intro b hb
        rcases List.mem_cons.mp hb with hb | hb
        · subst hb; exact hlt
        · exact ltCC_trans _ _ _ hlt (hy b hb)
      · rw [if_neg hlt]
        refine List.pairwise_cons.mpr ⟨?_, ih hys⟩
        intro b hb
        rcases (mem_insSorted x b ys).mp hb with hb | hb
        · subst hb
          have hyx : ltCC y.data b.data = true := by
            cases hyb : ltCC y.data b.data with
            | true => rfl
            | false =>
              exfalso
              have : b.data = y.data :=
                ltCC_eq_of_not _ _ (Bool.not_eq_true _ ▸ (by simpa using hlt)) hyb
              have hbe : b = y := String.ext this
              rw [hbe] at he
              simp at he
          exact hyx
        · exact hy b hb

theorem btInsertAll_mem (a : String) :
    ∀ (keys acc : List String), a ∈ btInsertAll acc keys ↔ a ∈ acc ∨ a ∈ keys := by
  intro keys
  induction keys with
  | nil => intro acc; simp [btInsertAll]
  | cons k ks ih =>
    intro acc
    have e : btInsertAll acc (k :: ks) = btInsertAll (insSorted k acc) ks := rfl
    rw [e, ih, mem_insSorted]
    simp [List.mem_cons]
    tauto

theorem btInsertAll_pairwise :
    ∀ (keys acc : List String),
      acc.Pairwise (fun a b => ltCC a.data b.data = true) →
      (btInsertAll acc keys).Pairwise (fun a b => ltCC a.data b.data = true) := by
  intro keys
  induction keys with
  | nil => intro acc h; exact h
  | cons k ks ih =>
    intro acc h
    exact ih (insSorted k acc) (pairwise_insSorted k acc h)

theorem columnsOf_go_mem (a : String) :
    ∀ (objs : List JObj) (acc : List String),
      a ∈ objs.foldl (fun acc o => btInsertAll acc (o.map Prod.fst)) acc ↔
        a ∈ acc ∨ ∃ o, o ∈ objs ∧ a ∈ o.map Prod.fst := by
  intro objs
  induction objs with
  | nil =>
    intro acc
    constructor
    · intro h; exact Or.inl h
    · rintro (h | ⟨o, ho, _⟩)
      · exact h
      · cases ho
  | cons o os ih =>
    intro acc
    rw [List.foldl_cons, ih, btInsertAll_mem]
    constructor
    · rintro ((h | h) | ⟨o2, ho2, h2⟩)
      · exact Or.inl h
      · exact Or.inr ⟨o, List.mem_cons_self o os, h⟩
      · exact Or.inr ⟨o2, List.mem_cons_of_mem o ho2, h2⟩
    · rintro (h | ⟨o2, ho2, h2⟩)
      · exact Or.inl (Or.inl h)
      · rcases List.mem_cons.mp ho2 with heq | hm
        · exact Or.inl (Or.inr (heq ▸ h2))
        · exact Or.inr ⟨o2, hm, h2⟩

theorem mem_columnsOf (a : String) (objs : List JObj) :
    a ∈ columnsOf objs ↔ ∃ o, o ∈ objs ∧ a ∈ o.map Prod.fst := by
  rw [columnsOf, columnsOf_go_mem]
  simp

theorem pairwise_columnsOf (objs : List JObj) :
    (columnsOf objs).Pairwise (fun a b => ltCC a.data b.data = true) := by
  rw [columnsOf]
  have go : ∀ (os : List JObj) (acc : List String),
      acc.Pairwise (fun a b => ltCC a.data b.data = true) →
      (os.foldl (fun acc o => btInsertAll acc (o.map Prod.fst)) acc).Pairwise
        (fun a b => ltCC a.data b.data = true) := by
    intro os
    induction os with
    | nil => intro acc h; exact h
    | cons o os2 ih =>
      intro acc h
      exact ih _ (btInsertAll_pairwise _ acc h)
  exact go objs [] (by simp)

theorem map_fst_rowOf (o : JObj) :
    ∀ columns : List String, (rowOf columns o).map Prod.fst = columns := by
  intro columns
  induction columns with
  | nil => rfl
  | cons c cs ih =>
    rw [rowOf, List.map_cons, List.map_cons]
    rw [rowOf] at ih
    rw [ih]

theorem lookup_rowOf (o : JObj) (c : String) :
    ∀ columns : List String, c ∈ columns →
      (rowOf columns o).lookup c = some (((o.lookup c).map json_to_string).getD "") := by
  intro columns
  induction columns with
  | nil => intro h; cases h
  | cons c2 rest ih =>
    intro hc
    rw [rowOf, List.map_cons]
    by_cases he : c = c2
    · subst he
      simp [List.lookup]
    · have hne : (c == c2) = false := beq_eq_false_iff_ne.mpr he
      rw [List.lookup, hne]
      rcases List.mem_cons.mp hc with hc | hc
      · exact absurd hc he
      · exact ih hc

theorem zip_map_self {α β : Type} (f : α → β) :
    ∀ (l : List α) (o : α) (r : β), (o, r) ∈ l.zip (l.map f) → r = f o := by
  intro l
  induction l with
  | nil => intro o r h; cases h
  | cons x xs ih =>
    intro o r h
    rw [List.map_cons, List.zip_cons_cons] at h
    rcases List.mem_cons.mp h with h | h
    · cases h; rfl
    · exact ih o r h

/- ====================== Claim C3 ====================== -/

/-- Claim C3: whenever normalization succeeds, the returned ApiTable has
lexicographically sorted columns that are exactly the union of the keys
of the discovered objects, one row per discovered object in order, every
row's key sequence equal to the columns, and the empty string wherever a
row's source object lacks a column's key. -/
theorem fetch_api_table_invariants (v : JVal) (objs : List JObj)
    (h : find_array_of_objects v = some objs) :
    fetch_api_table_core v = .ok (normalizeObjs objs) ∧
    (normalizeObjs objs).rows.length = objs.length ∧
    List.Sorted (· < ·) (normalizeObjs objs).columns ∧
    (∀ c, c ∈ (normalizeObjs objs).columns ↔ ∃ o, o ∈ objs ∧ c ∈ o.map Prod.fst) ∧
    (∀ r ∈ (normalizeObjs objs).rows, r.map Prod.fst = (normalizeObjs objs).columns) ∧
    (∀ o r, (o, r) ∈ objs.zip (normalizeObjs objs).rows →
      ∀ c ∈ (normalizeObjs objs).columns, o.lookup c = none → r.lookup c = some "") := by
  refine ⟨?_, ?_, ?_, ?_, ?_, ?_⟩
  · rw [fetch_api_table_core, h]
  · simp [normalizeObjs]
  · exact List.Pairwise.imp (fun hab => (strLt_iff _ _).mp hab) (pairwise_columnsOf objs)
  · intro c
    exact mem_columnsOf c objs
  · intro r hr
    simp only [normalizeObjs] at hr
    rcases List.mem_map.mp hr with ⟨o, _, rfl⟩
    exact map_fst_rowOf o _
  · intro o r hor c hc hnone
    simp only [normalizeObjs] at hor hc
    have hro : r = rowOf (columnsOf objs) o := zip_map_self _ objs o r hor
    rw [hro, lookup_rowOf o c (columnsOf objs) hc, hnone]
    rfl

/-- Witness for C3, the spec's own example: the array
`[{"a":"1","b":"2"},{"a":"3"}]` is discovered as two objects and
normalizes to `columns=["a","b"]`,
`rows=[{"a":"1","b":"2"},{"a":"3","b":""}]`. -/
theorem fetch_api_table_invariants_witness :
    find_array_of_objects
        (.arr [.obj [("a", .str "1"), ("b", .str "2")], .obj [("a", .str "3")]]) =
      some [[("a", JVal.str "1"), ("b", JVal.str "2")], [("a", JVal.str "3")]] ∧
    (normalizeObjs [[("a", JVal.str "1"), ("b", JVal.str "2")], [("a", JVal.str "3")]]).columns
      = ["a", "b"] ∧
    (normalizeObjs [[("a", JVal.str "1"), ("b", JVal.str "2")], [("a", JVal.str "3")]]).rows
      = [[("a", "1"), ("b", "2")], [("a", "3"), ("b", "")]] ∧
    (fetch_api_table_core
        (.arr [.obj [("a", .str "1"), ("b", .str "2")], .obj [("a", .str "3")]]) =
      .ok (normalizeObjs [[("a", JVal.str "1"), ("b", JVal.str "2")], [("a", JVal.str "3")]]) ∧
     (normalizeObjs [[("a", JVal.str "1"), ("b", JVal.str "2")], [("a", JVal.str "3")]]).rows.length
       = [[("a", JVal.str "1"), ("b", JVal.str "2")], [("a", JVal.str "3")]].length ∧
     List.Sorted (· < ·)
       (normalizeObjs [[("a", JVal.str "1"), ("b", JVal.str "2")], [("a", JVal.str "3")]]).columns ∧
     (∀ c, c ∈ (normalizeObjs [[("a", JVal.str "1"), ("b", JVal.str "2")], [("a", JVal.str "3")]]).columns ↔
       ∃ o, o ∈ [[("a", JVal.str "1"), ("b", JVal.str "2")], [("a", JVal.str "3")]] ∧ c ∈ o.map Prod.fst) ∧
     (∀ r ∈ (normalizeObjs [[("a", JVal.str "1"), ("b", JVal.str "2")], [("a", JVal.str "3")]]).rows,
       r.map Prod.fst = (normalizeObjs [[("a", JVal.str "1"), ("b", JVal.str "2")], [("a", JVal.str "3")]]).columns) ∧
     (∀ o r, (o, r) ∈ [[("a", JVal.str "1"), ("b", JVal.str "2")], [("a", JVal.str "3")]].zip
         (normalizeObjs [[("a", JVal.str "1"), ("b", JVal.str "2")], [("a", JVal.str "3")]]).rows →
       ∀ c ∈ (normalizeObjs [[("a", JVal.str "1"), ("b", JVal.str "2")], [("a", JVal.str "3")]]).columns,
         o.lookup c = none → r.lookup c = some "")) :=
  ⟨rfl, rfl, rfl, fetch_api_table_invariants _ _ rfl⟩

/- ====================== Claim C4: spec-side discovery strategy ====================== -/

/-- Spec wording: a candidate value counts when it "is an array with at
least one object element", and yields the kept object elements. -/
def specArrayWithObjects : JVal → Option (List JObj)
  | .arr xs => if 1 ≤ (keptObjs xs).length then some (keptObjs xs) else none
  | _ => none

/-- Spec tier (2): probe the conventional keys in their fixed order and
take the first whose value is an array with at least one object element. -/
def specTierPreferredKey : JVal → Option (List JObj)
  | .obj fields =>
    (preferredKeys.filterMap (fun k => (fields.lookup k).bind specArrayWithObjects)).head?
  | _ => none

/-- Spec tier (3): take the first other (non-conventional-key) value of
the root object that is an array with at least one object element. -/
def specTierScanValues : JVal → Option (List JObj)
  | .obj fields =>
    (fields.filterMap (fun kv =>
      if kv.1 ∈ preferredKeys then none else specArrayWithObjects kv.2)).head?
  | _ => none

/-- The claimed discovery strategy: root-array first, then conventional
keys, then the scan; a tier whose kept object set is empty defers to the
next. -/
def findArraySpec (v : JVal) : Option (List JObj) :=
  match specArrayWithObjects v with
  | some objs => some objs
  | none =>
    match specTierPreferredKey v with
    | some objs => some objs
    | none => specTierScanValues v

/-- Key-uniqueness of a JSON object, true of every value serde_json can
produce (its maps cannot hold duplicate keys). -/
def nodupKeys : JObj → Bool
  | [] => true
  | (k, _) :: rest => !(rest.any (fun kv => kv.1 == k)) && nodupKeys rest

def rootKeysNodup : JVal → Bool
  | .obj fields => nodupKeys fields
  | _ => true

theorem arrObjsOf_eq_spec (val : JVal) : arrObjsOf val = specArrayWithObjects val := by
  cases val with
  | arr xs =>
    simp only [arrObjsOf, specArrayWithObjects, JVal.asArr]
    cases h : keptObjs xs with
    | nil => simp [h]
    | cons a rest => simp [h]
  | null => rfl
  | bool b => rfl
  | num c => rfl
  | str s => rfl
  | obj fields => rfl

theorem probeKeys_eq_spec (fields : JObj) :
    ∀ ks : List String, probeKeys fields ks =
      (ks.filterMap (fun k => (fields.lookup k).bind specArrayWithObjects)).head? := by
  intro ks
  induction ks with
  | nil => rfl
  | cons k ks ih =>
    rw [probeKeys, List.filterMap_cons]
    cases hl : fields.lookup k with
    | none =>
      simp only [Option.none_bind]
      exact ih
    | some val =>
      have hs : specArrayWithObjects val = arrObjsOf val := (arrObjsOf_eq_spec val).symm
      cases ha : arrObjsOf val with
      | some objs =>
        rw [ha] at hs
        simp only [ha, Option.some_bind, hs, List.head?_cons]
      | none =>
        rw [ha] at hs
        simp only [ha, Option.some_bind, hs]
        exact ih

theorem probeKeys_none (fields : JObj) (ks : List String)
    (h : probeKeys fields ks = none) :
    ∀ k ∈ ks, ∀ val, fields.lookup k = some val → arrObjsOf val = none := by
  intro k hk val hval
  rw [probeKeys_eq_spec fields ks, List.head?_eq_none_iff] at h
  have hf := (List.filterMap_eq_nil_iff.mp h) k hk
  rw [hval] at hf
  rw [arrObjsOf_eq_spec]
  simpa using hf

theorem lookup_eq_none_of_not_any (k : String) :
    ∀ l : JObj, l.any (fun kv => kv.1 == k) = false → l.lookup k = none := by
  intro l
  induction l with
  | nil => intro _; rfl
  | cons kv rest ih =>
    obtain ⟨k2, v2⟩ := kv
    intro h
    rw [List.any_cons] at h
    rw [Bool.or_eq_false_iff] at h
    obtain ⟨h1, h2⟩ := h
    have hne : (k == k2) = false := by
      rw [beq_eq_false_iff_ne] at h1 ⊢
      exact fun e => h1 e.symm
    rw [List.lookup, hne]
    exact ih h2

theorem scanVals_eq_spec :
    ∀ fields : JObj, nodupKeys fields = true →
      (∀ k ∈ preferredKeys, ∀ val, fields.lookup k = some val → arrObjsOf val = none) →
      scanVals fields =
        (fields.filterMap (fun kv =>
          if kv.1 ∈ preferredKeys then none else specArrayWithObjects kv.2)).head? := by
  intro fields
  induction fields with
  | nil => intro _ _; rfl
  | cons kv rest ih =>
    obtain ⟨k, val⟩ := kv
    intro hnd hpref
    rw [nodupKeys, Bool.and_eq_true] at hnd
    obtain ⟨hnk, hnd⟩ := hnd
    rw [Bool.not_eq_true'] at hnk
    have hrest : ∀ k2 ∈ preferredKeys, ∀ v2, rest.lookup k2 = some v2 → arrObjsOf v2 = none := by
      intro k2 hk2 v2 hv2
      by_cases hkk : k2 = k
      · subst hkk
        rw [lookup_eq_none_of_not_any k2 rest hnk] at hv2
        cases hv2
      · apply hpref k2 hk2 v2
        rw [List.lookup, beq_eq_false_iff_ne.mpr hkk]
        exact hv2
    rw [scanVals, List.filterMap_cons]
    cases ha : arrObjsOf val with
    | some objs =>
      have hknp : k ∉ preferredKeys := by
        intro hkp
        have hcontra := hpref k hkp val (by rw [List.lookup, beq_self_eq_true])
        rw [ha] at hcontra
        cases hcontra
      have hspec : specArrayWithObjects val = some objs := by
        rw [← arrObjsOf_eq_spec]; exact ha
      simp only [hknp, if_neg, ite_false, hspec, List.head?_cons]
    | none =>
      have hspec : specArrayWithObjects val = none := by
        rw [← arrObjsOf_eq_spec]; exact ha
      by_cases hkp : k ∈ preferredKeys
      · simp only [hkp, if_pos, ite_true]
        exact ih hnd hrest
      · simp only [hkp, if_neg, ite_false, hspec]
        exact ih hnd hrest

/-- Claim C4: array discovery follows the claimed three fixed tiers
(root array of objects; the conventional keys items, rows, data, result,
notes, records in order; then the first other value that is an array
with at least one object element), a tier with no kept object element is
skipped, and the whole normalization fails exactly when every tier
yields nothing. -/
theorem find_array_of_objects_spec (v : JVal) (hnd : rootKeysNodup v = true) :
    find_array_of_objects v = findArraySpec v ∧
    exceptIsOk (fetch_api_table_core v) = (findArraySpec v).isSome := by
  have main : find_array_of_objects v = findArraySpec v := by
    cases v with
    | null => rfl
    | bool b => rfl
    | num c => rfl
    | str s => rfl
    | arr xs =>
      rw [find_array_of_objects, findArraySpec]
      have hs := arrObjsOf_eq_spec (.arr xs)
      cases ha : arrObjsOf (.arr xs) with
      | some objs =>
        rw [ha] at hs
        rw [← hs]
      | none =>
        rw [ha] at hs
        rw [← hs]
        rfl
    | obj fields =>
      have e1 : find_array_of_objects (.obj fields) =
          (match probeKeys fields preferredKeys with
           | some objs => some objs
           | none => scanVals fields) := rfl
      have e3 : specTierPreferredKey (.obj fields) =
          (preferredKeys.filterMap fun k =>
            (fields.lookup k).bind specArrayWithObjects).head? := rfl
      have e2 : findArraySpec (.obj fields) =
          (match specTierPreferredKey (.obj fields) with
           | some objs => some objs
           | none => specTierScanValues (.obj fields)) := rfl
      rw [e1, e2]
      rw [probeKeys_eq_spec fields preferredKeys, ← e3]
      cases hsp : specTierPreferredKey (.obj fields) with
      | some objs => rfl
      | none =>
        have e4 : specTierScanValues (.obj fields) =
            (fields.filterMap (fun kv =>
              if kv.1 ∈ preferredKeys then none
              else specArrayWithObjects kv.2)).head? := rfl
        rw [e4]
        have hnone : probeKeys fields preferredKeys = none := by
          rw [probeKeys_eq_spec fields preferredKeys, ← e3]
          exact hsp
        exact scanVals_eq_spec fields hnd (probeKeys_none fields preferredKeys hnone)
  refine ⟨main, ?_⟩
  cases hf : find_array_of_objects v with
  | none =>
    have hspec : findArraySpec v = none := main.symm.trans hf
    rw [fetch_api_table_core, hf, hspec]
    rfl
  | some objs =>
    have hspec : findArraySpec v = some objs := main.symm.trans hf
    rw [fetch_api_table_core, hf, hspec]
    rfl

/-- Witness for C4: an object whose conventional keys fail but whose
other key `stuff` holds an array with one object element; the code and
the spec-side strategy agree and the normalization succeeds. -/
theorem find_array_of_objects_spec_witness :
    rootKeysNodup (.obj [("meta", .str "x"), ("stuff", .arr [.obj [("a", .str "1")]])]) = true ∧
    find_array_of_objects
        (.obj [("meta", .str "x"), ("stuff", .arr [.obj [("a", .str "1")]])]) =
      some [[("a", JVal.str "1")]] ∧
    (find_array_of_objects
        (.obj [("meta", JVal.str "x"), ("stuff", JVal.arr [.obj [("a", .str "1")]])]) =
      findArraySpec (.obj [("meta", JVal.str "x"), ("stuff", JVal.arr [.obj [("a", .str "1")]])]) ∧
     exceptIsOk (fetch_api_table_core
        (.obj [("meta", JVal.str "x"), ("stuff", JVal.arr [.obj [("a", .str "1")]])])) =
      (findArraySpec (.obj [("meta", JVal.str "x"), ("stuff", JVal.arr [.obj [("a", .str "1")]])])).isSome) :=
  ⟨rfl, rfl, find_array_of_objects_spec _ rfl⟩

/- ====================== Claim C10 ====================== -/

/-- Claim C10: when the JSON response is neither an array nor an object
with an `items` or `notes` array, the decoder treats the root value as a
one-element candidate list and never raises a shape error: it returns
one unit exactly when the root carries a non-empty (trimmed) `code`
string and a non-empty (trimmed) text field matching `which`, and the
empty list otherwise. -/
theorem extract_api_units_fallback_root (which : String) (v : JVal)
    (h1 : v.asArr = none)
    (h2 : (v.get "items").bind JVal.asArr = none)
    (h3 : (v.get "notes").bind JVal.asArr = none) :
    extract_api_units_core which v =
      (if trimS (((v.get "code").bind JVal.asStr).getD "") ≠ "" ∧
          trimS (((v.get (if startsWithChar 'n' (toLowerS which) then "notes_text"
            else "items_text")).bind JVal.asStr).getD "") ≠ "" then
        [⟨trimS (((v.get "code").bind JVal.asStr).getD ""),
          trimS (((v.get (if startsWithChar 'n' (toLowerS which) then "notes_text"
            else "items_text")).bind JVal.asStr).getD ""), none⟩]
      else []) := by
  rw [extract_api_units_core, h1, h2, h3]
  simp only [List.filterMap_cons, List.filterMap_nil]
  by_cases hc : trimS (((v.get "code").bind JVal.asStr).getD "") ≠ "" ∧
      trimS (((v.get (if startsWithChar 'n' (toLowerS which) then "notes_text"
        else "items_text")).bind JVal.asStr).getD "") ≠ ""
  · simp only [if_pos hc]
  · simp only [if_neg hc]

/-- Witness for C10: the root object `{"code":"X1","items_text":"hello"}`
is not an array and has no `items`/`notes` array, yet decodes to the
single unit `{id:"X1", body:"hello"}`. -/
theorem extract_api_units_fallback_root_witness :
    (JVal.obj [("code", .str "X1"), ("items_text", .str "hello")]).asArr = none ∧
    ((JVal.obj [("code", .str "X1"), ("items_text", .str "hello")]).get "items").bind JVal.asArr = none ∧
    ((JVal.obj [("code", .str "X1"), ("items_text", .str "hello")]).get "notes").bind JVal.asArr = none ∧
    extract_api_units_core "items" (.obj [("code", .str "X1"), ("items_text", .str "hello")]) =
      [⟨"X1", "hello", none⟩] ∧
    (extract_api_units_core "items" (.obj [("code", .str "X1"), ("items_text", .str "hello")]) =
      (if trimS ((((JVal.obj [("code", .str "X1"), ("items_text", .str "hello")]).get "code").bind JVal.asStr).getD "") ≠ "" ∧
          trimS ((((JVal.obj [("code", .str "X1"), ("items_text", .str "hello")]).get
            (if startsWithChar 'n' (toLowerS "items") then "notes_text"
              else "items_text")).bind JVal.asStr).getD "") ≠ "" then
        [⟨trimS ((((JVal.obj [("code", .str "X1"), ("items_text", .str "hello")]).get "code").bind JVal.asStr).getD ""),
          trimS ((((JVal.obj [("code", .str "X1"), ("items_text", .str "hello")]).get
            (if startsWithChar 'n' (toLowerS "items") then "notes_text"
              else "items_text")).bind JVal.asStr).getD ""), none⟩]
      else [])) :=
  ⟨rfl, rfl, rfl, rfl,
   extract_api_units_fallback_root "items" (.obj [("code", .str "X1"), ("items_text", .str "hello")])
     rfl rfl rfl⟩

/- ====================== Spreadsheet model ====================== -/

/-- A calamine cell (`DataType`). A float is modelled as a rational:
`fract() == 0.0` becomes `den = 1`, and both Rust's `{}` (Display) and
`{:.0}` renderings of an integral float are the plain integer digits,
modelled as `toString q.num`; the display of a non-integral float is
abstracted as the `floatDisp` parameter carried by the functions below.
`other` covers the remaining variants (DateTime, Error, ...) whose
`to_string()` display is carried verbatim. -/
inductive Cell where
  | s (v : String)
  | f (v : ℚ)
  | i (v : Int)
  | b (v : Bool)
  | empty
  | other (display : String)

/-- calamine `DataType::is_empty`. -/
def Cell.isEmptyCell : Cell → Bool
  | .empty => true
  | _ => false

/-- `cell_to_string` of `lib.rs` lines 350-359. -/
def cell_to_string (floatDisp : ℚ → String) : Cell → Option String
  | .s v => some v
  | .f v => some (if v.den = 1 then toString v.num else floatDisp v)
  | .i v => some (toString v)
  | .b v => some (toString v)
  | .empty => none
  | .other display => some display

/-- The header-row search shared by `inspect_excel` (lines 255-267) and
`extract_excel_units` (lines 301-307): the first row with at least one
non-empty cell, together with its index. -/
def findHeaderIdx : List (List Cell) → Nat → Option (Nat × List Cell)
  | [], _ => none
  | r :: rest, i =>
    if r.any (fun c => !(c.isEmptyCell)) then some (i, r) else findHeaderIdx rest (i + 1)

/-- The header names built by `extract_excel_units` (line 303):
`cell_to_string` with a positional `col<N>` fallback only for cells that
stringify to `None` (i.e. `Empty`). -/
def headerOfRow (floatDisp : ℚ → String) (row : List Cell) : List String :=
  row.enum.map (fun jc => (cell_to_string floatDisp jc.2).getD ("col" ++ toString (jc.1 + 1)))

/-- One header cell as built by `inspect_excel` (lines 257-265): strings
are trimmed and replaced by `col<N>` when blank; floats/ints/bools render
naturally; everything else becomes `col<N>`. -/
def inspectHeaderCell (floatDisp : ℚ → String) (i : Nat) : Cell → String
  | .s v => if trimS v = "" then "col" ++ toString (i + 1) else trimS v
  | .f v => if v.den = 1 then toString v.num else floatDisp v
  | .i v => toString v
  | .b v => toString v
  | _ => "col" ++ toString (i + 1)

/-- The per-sheet column list of `inspect_excel` (lines 252-275). -/
def inspect_excel_columns (floatDisp : ℚ → String) (range : List (List Cell)) : List String :=
  match findHeaderIdx range 0 with
  | some (_, row) => row.enum.map (fun jc => inspectHeaderCell floatDisp jc.1 jc.2)
  | none =>
    match range.head? with
    | some first => (List.range first.length).map (fun i => "col" ++ toString (i + 1))
    | none => []

structure ExcelConfig where
  sheet : String
  idColumn : String
  descriptionColumns : List String

/-- Resolution of the description column names (lines 315-318):
first failure aborts. -/
def resolveCols (header : List String) : List String → Except String (List Nat)
  | [] => .ok []
  | n :: ns =>
    match header.findIdx? (fun h => eqIgnoreAsciiCase h n) with
    | none => .error ("Description column not found: " ++ n)
    | some i =>
      match resolveCols header ns with
      | .error e => .error e
      | .ok rest => .ok (i :: rest)

/-- The id cell of a row, trimmed (line 324). -/
def rowIdOf (floatDisp : ℚ → String) (idIdx : Nat) (row : List Cell) : String :=
  trimS (((row[idIdx]?).bind (cell_to_string floatDisp)).getD "")

/-- The trimmed, non-empty description parts of a row (lines 327-333). -/
def rowPartsOf (floatDisp : ℚ → String) (descIdxs : List Nat) (row : List Cell) : List String :=
  descIdxs.filterMap (fun di =>
    match (row[di]?).bind (cell_to_string floatDisp) with
    | some s => if trimS s = "" then none else some (trimS s)
    | none => none)

/-- The concatenated body of a row (line 334). -/
def rowBodyOf (floatDisp : ℚ → String) (descIdxs : List Nat) (row : List Cell) : String :=
  joinNL (rowPartsOf floatDisp descIdxs row)

/-- The per-row body of the extraction loop (lines 322-345). -/
def row_to_unit (floatDisp : ℚ → String) (sheet : String) (idIdx : Nat)
    (descIdxs : List Nat) (i : Nat) (row : List Cell) : Option PromptUnit :=
  let id := rowIdOf floatDisp idIdx row
  if id = "" then none
  else
    let body := rowBodyOf floatDisp descIdxs row
    if body = "" then none
    else some ⟨id, body, some (.obj [("sheet", .str sheet), ("rowIndex", .num (toString i))])⟩

/-- The skip condition the claim describes: blank trimmed id, or empty
concatenated trimmed description. -/
def rowSkippedB (floatDisp : ℚ → String) (idIdx : Nat) (descIdxs : List Nat)
    (row : List Cell) : Bool :=
  (rowIdOf floatDisp idIdx row == "") || (rowBodyOf floatDisp descIdxs row == "")

/-- `extract_excel_units` of `lib.rs` lines 292-348, for an already
opened worksheet range. -/
def extract_excel_units (floatDisp : ℚ → String) (range : List (List Cell))
    (config : ExcelConfig) : Except String (List PromptUnit) :=
  match findHeaderIdx range 0 with
  | none => .error "Could not detect header row"
  | some (hIdx, hRow) =>
    match (headerOfRow floatDisp hRow).findIdx?
        (fun h => eqIgnoreAsciiCase h config.idColumn) with
    | none => .error ("ID column not found: " ++ config.idColumn)
    | some idIdx =>
      match resolveCols (headerOfRow floatDisp hRow) config.descriptionColumns with
      | .error e => .error e
      | .ok descIdxs =>
        .ok (range.enum.filterMap (fun p =>
          if p.1 ≤ hIdx then none
          else row_to_unit floatDisp config.sheet idIdx descIdxs p.1 p.2))

/- ====================== Counting lemmas ====================== -/

theorem length_filterMap_add {α β : Type} (f : α → Option β) :
    ∀ l : List α, (l.filterMap f).length + l.countP (fun a => (f a).isNone) = l.length := by
  intro l
  induction l with
  | nil => rfl
  | cons a l ih =>
    rw [List.filterMap_cons, List.countP_cons]
    cases hf : f a with
    | none => simp [hf, ← ih]; omega
    | some b => simp [hf, ← ih]; omega

theorem filterMap_guard {α β : Type} (P : α → Prop) [DecidablePred P] (f : α → Option β) :
    ∀ l : List α, (l.filterMap (fun a => if P a then none else f a)) =
      (l.filter (fun a => !(decide (P a)))).filterMap f := by
  intro l
  induction l with
  | nil => rfl
  | cons a l ih =>
    by_cases hp : P a
    · simp [hp, ih]
    · cases hf : f a <;> simp [hp, hf, ih]

theorem filter_not_le {α : Type} (n : Nat) :
    ∀ l : List (Nat × α), l.filter (fun p => !(decide (p.1 ≤ n))) =
      l.filter (fun p => decide (n < p.1)) := by
  intro l
  apply List.filter_congr
  intro p _
  rw [← decide_not]
  exact decide_eq_decide.mpr Nat.not_le

theorem row_to_unit_some (floatDisp : ℚ → String) (sheet : String) (idIdx : Nat)
    (descIdxs : List Nat) (i : Nat) (row : List Cell) (u : PromptUnit)
    (h : row_to_unit floatDisp sheet idIdx descIdxs i row = some u) :
    u.id ≠ "" ∧ u.body ≠ "" := by
  rw [row_to_unit] at h
  by_cases hid : rowIdOf floatDisp idIdx row = ""
  · rw [if_pos hid] at h; cases h
  · rw [if_neg hid] at h
    by_cases hb : rowBodyOf floatDisp descIdxs row = ""
    · rw [if_pos hb] at h; cases h
    · rw [if_neg hb] at h
      cases h
      exact ⟨hid, hb⟩

theorem row_to_unit_none_iff (floatDisp : ℚ → String) (sheet : String) (idIdx : Nat)
    (descIdxs : List Nat) (i : Nat) (row : List Cell) :
    (row_to_unit floatDisp sheet idIdx descIdxs i row).isNone =
      rowSkippedB floatDisp idIdx descIdxs row := by
  rw [row_to_unit, rowSkippedB]
  by_cases hid : rowIdOf floatDisp idIdx row = ""
  · simp [hid]
  · rw [if_neg hid]
    by_cases hb : rowBodyOf floatDisp descIdxs row = ""
    · simp [hid, hb]
    · simp [hid, hb]

/- ====================== Claim C7 ====================== -/

/-- Claim C7: every successful spreadsheet extraction returns only units
with non-empty id and body; data rows (strictly after the header row)
with a blank trimmed id or an empty concatenated trimmed description are
skipped without error, and the number of units is the number of data
rows minus the skipped ones. -/
theorem extract_excel_units_props (floatDisp : ℚ → String) (range : List (List Cell))
    (config : ExcelConfig) (units : List PromptUnit)
    (h : extract_excel_units floatDisp range config = .ok units) :
    (∀ u ∈ units, u.id ≠ "" ∧ u.body ≠ "") ∧
    ∃ hIdx hRow idIdx descIdxs,
      findHeaderIdx range 0 = some (hIdx, hRow) ∧
      (headerOfRow floatDisp hRow).findIdx?
        (fun h2 => eqIgnoreAsciiCase h2 config.idColumn) = some idIdx ∧
      resolveCols (headerOfRow floatDisp hRow) config.descriptionColumns = .ok descIdxs ∧
      units.length =
        (range.enum.filter (fun p => decide (hIdx < p.1))).length
          - (range.enum.filter (fun p => decide (hIdx < p.1))).countP
              (fun p => rowSkippedB floatDisp idIdx descIdxs p.2) := by
  rw [extract_excel_units] at h
  split at h
  · cases h
  next hIdx hRow hh =>
    split at h
    · cases h
    next idIdx hx =>
      split at h
      · cases h
      next descIdxs hr =>
        cases h
        constructor
        · intro u hu
          rcases List.mem_filterMap.mp hu with ⟨p, _, hp⟩
          by_cases hle : p.1 ≤ hIdx
          · rw [if_pos hle] at hp; cases hp
          · rw [if_neg hle] at hp
            exact row_to_unit_some floatDisp config.sheet idIdx descIdxs p.1 p.2 u hp
        · refine ⟨hIdx, hRow, idIdx, descIdxs, hh, hx, hr, ?_⟩
          rw [filterMap_guard (fun p : Nat × List Cell => p.1 ≤ hIdx)
                (fun p => row_to_unit floatDisp config.sheet idIdx descIdxs p.1 p.2) range.enum]
          rw [filter_not_le hIdx range.enum]
          have hlen := length_filterMap_add
            (fun p : Nat × List Cell => row_to_unit floatDisp config.sheet idIdx descIdxs p.1 p.2)
            (range.enum.filter (fun p => decide (hIdx < p.1)))
          have hcong : (range.enum.filter (fun p => decide (hIdx < p.1))).countP
              (fun p : Nat × List Cell =>
                (row_to_unit floatDisp config.sheet idIdx descIdxs p.1 p.2).isNone) =
              (range.enum.filter (fun p => decide (hIdx < p.1))).countP
              (fun p => rowSkippedB floatDisp idIdx descIdxs p.2) := by
            apply List.countP_congr
            intro p _
            rw [row_to_unit_none_iff floatDisp config.sheet idIdx descIdxs p.1 p.2]
          omega

/-- Witness for C7: a sheet with header `["ID","Desc"]` and three data
rows, of which one has a blank id and one an empty description; exactly
one unit comes back and the count identity holds. -/
theorem extract_excel_units_props_witness :
    extract_excel_units (fun _ => "")
        [[Cell.s "ID", Cell.s "Desc"], [Cell.s "X1", Cell.s "hello"],
         [Cell.s "", Cell.s "y"], [Cell.s "Z", Cell.empty]]
        ⟨"S", "id", ["desc"]⟩ =
      .ok [⟨"X1", "hello",
            some (.obj [("sheet", JVal.str "S"), ("rowIndex", JVal.num "1")])⟩] ∧
    ((∀ u ∈ [(⟨"X1", "hello",
            some (.obj [("sheet", JVal.str "S"), ("rowIndex", JVal.num "1")])⟩ : PromptUnit)],
        u.id ≠ "" ∧ u.body ≠ "") ∧
     ∃ hIdx hRow idIdx descIdxs,
       findHeaderIdx
           [[Cell.s "ID", Cell.s "Desc"], [Cell.s "X1", Cell.s "hello"],
            [Cell.s "", Cell.s "y"], [Cell.s "Z", Cell.empty]] 0 = some (hIdx, hRow) ∧
       (headerOfRow (fun _ => "") hRow).findIdx?
         (fun h2 => eqIgnoreAsciiCase h2 "id") = some idIdx ∧
       resolveCols (headerOfRow (fun _ => "") hRow) ["desc"] = .ok descIdxs ∧
       [(⟨"X1", "hello",
            some (.obj [("sheet", JVal.str "S"), ("rowIndex", JVal.num "1")])⟩ : PromptUnit)].length =
         (([[Cell.s "ID", Cell.s "Desc"], [Cell.s "X1", Cell.s "hello"],
            [Cell.s "", Cell.s "y"], [Cell.s "Z", Cell.empty]] : List (List Cell)).enum.filter
             (fun p => decide (hIdx < p.1))).length
           - (([[Cell.s "ID", Cell.s "Desc"], [Cell.s "X1", Cell.s "hello"],
               [Cell.s "", Cell.s "y"], [Cell.s "Z", Cell.empty]] : List (List Cell)).enum.filter
               (fun p => decide (hIdx < p.1))).countP
               (fun p => rowSkippedB (fun _ => "") idIdx descIdxs p.2)) :=
  ⟨rfl, extract_excel_units_props (fun _ => "")
      [[Cell.s "ID", Cell.s "Desc"], [Cell.s "X1", Cell.s "hello"],
       [Cell.s "", Cell.s "y"], [Cell.s "Z", Cell.empty]]
      ⟨"S", "id", ["desc"]⟩
      [⟨"X1", "hello", some (.obj [("sheet", JVal.str "S"), ("rowIndex", JVal.num "1")])⟩]
      rfl⟩

/- ====================== Claim C8 ====================== -/

theorem headerOfRow_getElem (floatDisp : ℚ → String) (row : List Cell) (j : Nat) :
    (headerOfRow floatDisp row)[j]? =
      (row[j]?).map (fun c => (cell_to_string floatDisp c).getD ("col" ++ toString (j + 1))) := by
  rw [headerOfRow, List.getElem?_map, List.getElem?_enum]
  cases row[j]? <;> rfl

/-- Claim C8 counterexample: in extractUnits' header detection a
whitespace-only string header cell is not replaced by the positional
placeholder. The header row `[" ", "ID"]` is detected (a whitespace
string cell is not Empty), and the first header name produced by line
303 stays `" "` rather than `"col1"`; only the inspect path (line 259)
replaces it. -/
theorem extract_header_keeps_whitespace_cex :
    findHeaderIdx [[Cell.s " ", Cell.s "ID"]] 0 = some (0, [Cell.s " ", Cell.s "ID"]) ∧
    headerOfRow (fun _ => "") [Cell.s " ", Cell.s "ID"] = [" ", "ID"] ∧
    (" " : String) ≠ "col1" ∧
    trimS " " = "" ∧
    inspect_excel_columns (fun _ => "") [[Cell.s " ", Cell.s "ID"]] = ["col1", "ID"] :=
  ⟨rfl, rfl, by decide, rfl, rfl⟩

/-- Claim C8 (amended): in inspectSpreadsheet's header detection every
empty or whitespace-only header cell is replaced with `col<N>`
(1-indexed); in extractUnits' header detection only truly empty cells
are replaced with `col<N>` while a string header cell — even a
whitespace-only one — is kept verbatim; in both, integral numeric header
cells render without a forced decimal and booleans render as
`true`/`false`. -/
theorem header_cell_rendering (floatDisp : ℚ → String) (i j : Nat) (row : List Cell)
    (s : String) (q : ℚ) (b : Bool)
    (hs : trimS s = "") (hq : q.den = 1) :
    inspectHeaderCell floatDisp i (.s s) = "col" ++ toString (i + 1) ∧
    inspectHeaderCell floatDisp i .empty = "col" ++ toString (i + 1) ∧
    (row[j]? = some Cell.empty →
      (headerOfRow floatDisp row)[j]? = some ("col" ++ toString (j + 1))) ∧
    (∀ s2 : String, row[j]? = some (Cell.s s2) →
      (headerOfRow floatDisp row)[j]? = some s2) ∧
    inspectHeaderCell floatDisp i (.f q) = toString q.num ∧
    cell_to_string floatDisp (.f q) = some (toString q.num) ∧
    inspectHeaderCell floatDisp i (.b b) = toString b ∧
    cell_to_string floatDisp (.b b) = some (toString b) := by
  refine ⟨?_, rfl, ?_, ?_, ?_, ?_, rfl, rfl⟩
  · rw [inspectHeaderCell, if_pos hs]
  · intro hj
    rw [headerOfRow_getElem, hj]
    rfl
  · intro s2 hj
    rw [headerOfRow_getElem, hj]
    rfl
  · rw [inspectHeaderCell, if_pos hq]
  · rw [cell_to_string, if_pos hq]

/-- Witness for the amended C8 at concrete cells: a whitespace-only
string cell in inspect, an Empty cell and a string cell in extract, the
integral float 2 and a boolean. -/
theorem header_cell_rendering_witness :
    trimS "  " = "" ∧ (2 : ℚ).den = 1 ∧
    (inspectHeaderCell (fun _ => "") 0 (.s "  ") = "col" ++ toString (0 + 1) ∧
     inspectHeaderCell (fun _ => "") 0 .empty = "col" ++ toString (0 + 1) ∧
     ([Cell.empty][0]? = some Cell.empty →
       (headerOfRow (fun _ => "") [Cell.empty])[0]? = some ("col" ++ toString (0 + 1))) ∧
     (∀ s2 : String, [Cell.empty][0]? = some (Cell.s s2) →
       (headerOfRow (fun _ => "") [Cell.empty])[0]? = some s2) ∧
     inspectHeaderCell (fun _ => "") 0 (.f 2) = toString (2 : ℚ).num ∧
     cell_to_string (fun _ => "") (.f 2) = some (toString (2 : ℚ).num) ∧
     inspectHeaderCell (fun _ => "") 0 (.b true) = toString true ∧
     cell_to_string (fun _ => "") (.b true) = some (toString true)) :=
  ⟨rfl, by decide,
   header_cell_rendering (fun _ => "") 0 0 [Cell.empty] "  " 2 true rfl (by decide)⟩

/- ====================== Delimiter (regex) extractor ====================== -/

/-- `&text[s..e]` as a character-list slice. -/
def sliceCC (text : List Char) (s e : Nat) : List Char := (text.drop s).take (e - s)

/-- `starts.windows(2)`: consecutive boundary pairs. -/
def windows2 : List Nat → List (Nat × Nat)
  | a :: b :: rest => (a, b) :: windows2 (b :: rest)
  | _ => []

/-- The per-block id of lines 416-421: first capture of the id pattern
if it matches, else the 1-based running count of units produced so
far. The id-capture regex is abstracted as a function from the block to
the optional captured text. -/
def regexUnitId (idCap : Option (List Char → Option String)) (block : List Char)
    (count : Nat) : String :=
  match idCap with
  | some f => (f block).getD (toString (count + 1))
  | none => toString (count + 1)

/-- The block loop of lines 410-423: skip degenerate windows, trim each
slice, skip blank blocks, push a unit whose id sees the running count. -/
def regexBlocksGo (text : List Char) (idCap : Option (List Char → Option String)) :
    List (Nat × Nat) → List PromptUnit → List PromptUnit
  | [], acc => acc
  | (s, e) :: rest, acc =>
    if e ≤ s then regexBlocksGo text idCap rest acc
    else
      if (trimCC (sliceCC text s e)).isEmpty then regexBlocksGo text idCap rest acc
      else regexBlocksGo text idCap rest
        (acc ++ [⟨regexUnitId idCap (trimCC (sliceCC text s e)) acc.length,
                 ⟨trimCC (sliceCC text s e)⟩, none⟩])

/-- `extract_regex_blocks` of `lib.rs` lines 371-426, with the delimiter
regex abstracted as the (sorted) list `starts` of match start offsets
that `find_iter` produced. -/
def extract_regex_blocks (text : List Char) (starts : List Nat)
    (idCap : Option (List Char → Option String)) : List PromptUnit :=
  if starts.isEmpty then
    if (trimCC text).isEmpty then []
    else [⟨(match idCap with
            | some f => (f text).getD "1"
            | none => "1"), ⟨trimCC text⟩, none⟩]
  else
    regexBlocksGo text idCap (windows2 (0 :: (starts ++ [text.length]))) []

/-- The raw (untrimmed) segments the boundary list induces. -/
def segmentsOf (text : List Char) (starts : List Nat) : List (List Char) :=
  (windows2 (0 :: (starts ++ [text.length]))).map (fun p => sliceCC text p.1 p.2)

theorem join_slices (text : List Char) :
    ∀ (mids : List Nat) (p : Nat), List.Chain' (· ≤ ·) (p :: mids) →
      (∀ q ∈ mids, q ≤ text.length) → p ≤ text.length →
      ((windows2 (p :: (mids ++ [text.length]))).map
        (fun pr => sliceCC text pr.1 pr.2)).flatten = text.drop p := by
  intro mids
  induction mids with
  | nil =>
    intro p _ _ _
    show ((windows2 [p, text.length]).map (fun pr => sliceCC text pr.1 pr.2)).flatten
      = text.drop p
    rw [show windows2 [p, text.length] = [(p, text.length)] from rfl]
    rw [List.map_cons, List.map_nil, List.flatten_cons, List.flatten_nil, List.append_nil]
    rw [sliceCC, ← List.length_drop]
    exact List.take_length _
  | cons q mids ih =>
    intro p hchain hin hp
    have hpq : p ≤ q := (List.chain'_cons.mp hchain).1
    have hch2 : List.Chain' (· ≤ ·) (q :: mids) := (List.chain'_cons.mp hchain).2
    have hq : q ≤ text.length := hin q (List.mem_cons_self q mids)
    have hin2 : ∀ r ∈ mids, r ≤ text.length := fun r hr => hin r (List.mem_cons_of_mem q hr)
    show ((windows2 (p :: q :: (mids ++ [text.length]))).map
        (fun pr => sliceCC text pr.1 pr.2)).flatten = text.drop p
    rw [show windows2 (p :: q :: (mids ++ [text.length])) =
        (p, q) :: windows2 (q :: (mids ++ [text.length])) from rfl]
    rw [List.map_cons, List.flatten_cons]
    rw [ih q hch2 hin2 hq]
    rw [sliceCC]
    have hdq : text.drop q = (text.drop p).drop (q - p) := by
      rw [List.drop_drop]
      congr 1
      omega
    rw [hdq]
    exact List.take_append_drop (q - p) (text.drop p)

theorem regexBlocksGo_bodies (text : List Char) (idCap : Option (List Char → Option String)) :
    ∀ (pairs : List (Nat × Nat)) (acc : List PromptUnit),
      (regexBlocksGo text idCap pairs acc).map PromptUnit.body =
        acc.map PromptUnit.body ++
          ((pairs.map (fun p => trimCC (sliceCC text p.1 p.2))).filter
            (fun l => !l.isEmpty)).map (fun l => (⟨l⟩ : String)) := by
  intro pairs
  induction pairs with
  | nil => intro acc; simp [regexBlocksGo]
  | cons pr rest ih =>
    obtain ⟨s, e⟩ := pr
    intro acc
    rw [regexBlocksGo]
    by_cases hse : e ≤ s
    · rw [if_pos hse]
      rw [ih, List.map_cons]
      have hslice : sliceCC text s e = [] := by
        rw [sliceCC, Nat.sub_eq_zero_of_le hse, List.take_zero]
      have ht : trimCC ([] : List Char) = [] := rfl
      simp [hslice, ht]
    · rw [if_neg hse]
      by_cases hb : (trimCC (sliceCC text s e)).isEmpty = true
      · rw [if_pos hb]
        rw [ih, List.map_cons]
        simp [hb]
      · rw [if_neg hb]
        rw [ih, List.map_cons]
        simp only [Bool.not_eq_true] at hb
        simp [hb, List.map_append, List.filter_cons, List.append_assoc]

/-- Claim C5 counterexample: for the delimiter `"## "` on the document
`"## A\nfoo\n## B\nbar"` (matches at offsets 0 and 9, matched text
`"## "` of length 3), the returned bodies are `"## A\nfoo"` and
`"## B\nbar"` — each already contains its delimiter. The two bodies
together with the two matched delimiter texts total 22 characters while
the trimmed document has 17, so no interleaving of the bodies with the
matched delimiters can reconstruct the trimmed document; nor does the
concatenation of the bodies alone. -/
theorem extract_regex_blocks_interleave_cex :
    (extract_regex_blocks ("## A\nfoo\n## B\nbar").data [0, 9] none).map PromptUnit.body =
      ["## A\nfoo", "## B\nbar"] ∧
    ((extract_regex_blocks ("## A\nfoo\n## B\nbar").data [0, 9] none).map
        (fun u => u.body.length)).sum + ("## ".length + "## ".length) ≠
      (trimCC ("## A\nfoo\n## B\nbar").data).length ∧
    String.join ((extract_regex_blocks ("## A\nfoo\n## B\nbar").data [0, 9] none).map
        PromptUnit.body) ≠ (⟨trimCC ("## A\nfoo\n## B\nbar").data⟩ : String) := by
  refine ⟨?_, ?_, ?_⟩ <;> decide

/-- Claim C5 (amended): concatenating the raw segments (the slices
between consecutive boundaries 0, the delimiter match starts, and the
document end) reconstructs the original document exactly, with no
delimiter text inserted between them — each segment already begins with
its delimiter match; the returned bodies are precisely the trims of the
non-blank segments, so trimming (not the delimiters) is all that
separates the concatenated bodies from the original document. -/
theorem extract_regex_blocks_reconstruction (text : List Char) (starts : List Nat)
    (idCap : Option (List Char → Option String))
    (hs : List.Sorted (· ≤ ·) starts) (hb : ∀ s ∈ starts, s ≤ text.length) :
    (segmentsOf text starts).flatten = text ∧
    (extract_regex_blocks text starts idCap).map PromptUnit.body =
      (((segmentsOf text starts).map trimCC).filter
        (fun l => !l.isEmpty)).map (fun l => (⟨l⟩ : String)) := by
  have hchain : List.Chain' (· ≤ ·) (0 :: starts) := by
    apply List.Pairwise.chain'
    exact List.pairwise_cons.mpr ⟨fun x _ => Nat.zero_le x, hs⟩
  constructor
  · rw [segmentsOf]
    have hj := join_slices text starts 0 hchain hb (Nat.zero_le _)
    rw [List.drop_zero] at hj
    exact hj
  · cases starts with
    | nil =>
      have hseg : segmentsOf text ([] : List Nat) = [text] := by
        rw [segmentsOf]
        rw [show windows2 (0 :: (([] : List Nat) ++ [text.length])) =
            [(0, text.length)] from rfl]
        rw [List.map_cons, List.map_nil]
        rw [sliceCC, List.drop_zero, Nat.sub_zero, List.take_length]
      rw [hseg]
      show (if (trimCC text).isEmpty then ([] : List PromptUnit)
          else [⟨(match idCap with
                  | some f => (f text).getD "1"
                  | none => "1"), ⟨trimCC text⟩, none⟩]).map PromptUnit.body = _
      cases he : (trimCC text).isEmpty with
      | true => simp [he]
      | false => simp [he]
    | cons st rest =>
      show (regexBlocksGo text idCap
          (windows2 (0 :: ((st :: rest) ++ [text.length]))) []).map PromptUnit.body = _
      rw [regexBlocksGo_bodies]
      rw [List.map_nil, List.nil_append]
      rw [segmentsOf, List.map_map]
      rfl

/-- Witness for the amended C5: the document `"ab#cd"` with one match
start at offset 2; the two raw segments `"ab"` and `"#cd"` concatenate
back to the document, and the bodies are their trims. -/
theorem extract_regex_blocks_reconstruction_witness :
    List.Sorted (· ≤ ·) [2] ∧ (∀ s ∈ [2], s ≤ ("ab#cd").data.length) ∧
    ((segmentsOf ("ab#cd").data [2]).flatten = ("ab#cd").data ∧
     (extract_regex_blocks ("ab#cd").data [2] none).map PromptUnit.body =
       ((((segmentsOf ("ab#cd").data [2]).map trimCC).filter
         (fun l => !l.isEmpty)).map (fun l => (⟨l⟩ : String)))) :=
  ⟨by decide, by decide,
   extract_regex_blocks_reconstruction ("ab#cd").data [2] none (by decide) (by decide)⟩

/- ====================== HTML (DOM) extractor ====================== -/

/-- One element matched by the item selector, as handed over by the DOM
engine (crate `scraper`, abstracted): its own attributes, its collected
text, the attributes and text of the first descendant matched by the id
selector (when one is configured and matches), and the texts of the
descendants matched by the description selector, in document order. -/
structure DomItem where
  attrs : List (String × String)
  text : String
  idMatch : Option (List (String × String) × String)
  descTexts : List String

/-- The `HtmlConfig` of `lib.rs` lines 429-436: whether a non-blank id
selector and description selector were supplied, and the optional id
attribute name (`none` defaults to `"id"`, line 455). -/
structure HtmlConfig where
  idSelectorGiven : Bool
  descSelectorGiven : Bool
  idAttr : Option String

/-- `el.value().attr(name)`. -/
def attrOf (attrs : List (String × String)) (name : String) : Option String :=
  attrs.lookup name

/-- The per-item id resolution of lines 461-478. -/
def htmlItemId (config : HtmlConfig) (i : Nat) (el : DomItem) : String :=
  if config.idSelectorGiven then
    match el.idMatch with
    | some nd =>
      match attrOf nd.1 (config.idAttr.getD "id") with
      | some v => v
      | none => if trimS nd.2 = "" then toString (i + 1) else trimS nd.2
    | none => toString (i + 1)
  else
    match attrOf el.attrs (config.idAttr.getD "id") with
    | some v => v
    | none => toString (i + 1)

/-- The description buffer of lines 482-489: the trimmed non-blank
texts of the matched descendants, joined by newline. -/
def htmlDescBuf (el : DomItem) : String :=
  joinNL (el.descTexts.filterMap (fun t => if trimS t = "" then none else some (trimS t)))

/-- The per-item body resolution of lines 481-496. -/
def htmlItemBody (config : HtmlConfig) (el : DomItem) : String :=
  if config.descSelectorGiven then
    if htmlDescBuf el = "" then trimS el.text else htmlDescBuf el
  else trimS el.text

/-- `extract_html_blocks` of lines 439-503: items in document order,
0-indexed; items whose resolved body is empty are dropped. -/
def extract_html_blocks (config : HtmlConfig) (items : List DomItem) : List PromptUnit :=
  items.enum.filterMap (fun p =>
    if htmlItemBody config p.2 = "" then none
    else some ⟨htmlItemId config p.1 p.2, htmlItemBody config p.2, none⟩)

/- ====================== Claim C9 ====================== -/

/-- Claim C9: when no id selector is supplied, every returned unit's id
is the item element's own named attribute value when that attribute is
present, and the 1-based positional fallback otherwise — the item's
text content is never used as the id on this path. -/
theorem extract_html_blocks_no_idsel (config : HtmlConfig) (items : List DomItem)
    (hnosel : config.idSelectorGiven = false) :
    ∀ u ∈ extract_html_blocks config items,
      ∃ i el, items[i]? = some el ∧
        ((∃ v, attrOf el.attrs (config.idAttr.getD "id") = some v ∧ u.id = v) ∨
         (attrOf el.attrs (config.idAttr.getD "id") = none ∧
          u.id = toString (i + 1))) := by
  intro u hu
  rcases List.mem_filterMap.mp hu with ⟨p, hp, hfp⟩
  rcases List.mem_iff_getElem?.mp hp with ⟨i, hip⟩
  rw [List.getElem?_enum] at hip
  cases hel : items[i]? with
  | none => rw [hel] at hip; cases hip
  | some el =>
    rw [hel] at hip
    injection hip with hip2
    subst hip2
    refine ⟨i, el, hel, ?_⟩
    by_cases hb : htmlItemBody config el = ""
    · rw [if_pos hb] at hfp
      cases hfp
    · rw [if_neg hb] at hfp
      cases hfp
      have hid : htmlItemId config i el =
          (match attrOf el.attrs (config.idAttr.getD "id") with
           | some v => v
           | none => toString (i + 1)) := by
        rw [htmlItemId, hnosel]
        rfl
      cases ha : attrOf el.attrs (config.idAttr.getD "id") with
      | some v =>
        left
        refine ⟨v, rfl, ?_⟩
        show htmlItemId config i el = v
        rw [hid, ha]
      | none =>
        right
        refine ⟨rfl, ?_⟩
        show htmlItemId config i el = toString (i + 1)
        rw [hid, ha]

/-- Witness for C9, the spec's own example: items
`<li id="a1">hi</li><li>there</li>` with item selector `li`, no id
selector, default id attribute, yield ids `"a1"` and `"2"` with bodies
`"hi"` and `"there"`. -/
theorem extract_html_blocks_no_idsel_witness :
    extract_html_blocks ⟨false, false, none⟩
        [⟨[("id", "a1")], "hi", none, []⟩, ⟨[], "there", none, []⟩] =
      [⟨"a1", "hi", none⟩, ⟨"2", "there", none⟩] ∧
    (⟨false, false, none⟩ : HtmlConfig).idSelectorGiven = false ∧
    (∀ u ∈ extract_html_blocks ⟨false, false, none⟩
        [⟨[("id", "a1")], "hi", none, []⟩, ⟨[], "there", none, []⟩],
      ∃ i el,
        ([⟨[("id", "a1")], "hi", none, []⟩,
          (⟨[], "there", none, []⟩ : DomItem)])[i]? = some el ∧
        ((∃ v, attrOf el.attrs ((⟨false, false, none⟩ : HtmlConfig).idAttr.getD "id") = some v ∧
            u.id = v) ∨
         (attrOf el.attrs ((⟨false, false, none⟩ : HtmlConfig).idAttr.getD "id") = none ∧
          u.id = toString (i + 1)))) :=
  ⟨rfl, rfl,
   extract_html_blocks_no_idsel ⟨false, false, none⟩
     [⟨[("id", "a1")], "hi", none, []⟩, ⟨[], "there", none, []⟩] rfl⟩
